import Mathlib

/-!
Verification development for the `mote` repository (tiny-planet terrain game).

Part 1 embeds `src/js/SurfaceNets.js` (surface-nets isosurface extraction).
Field samples are modelled as rational numbers `ℚ` (the JS code performs only
field arithmetic and comparisons on them, and `ℚ` keeps every definition
executable).  Part 2 embeds the signed-distance function of the `TinyPlanet`
class over the real numbers `ℝ`.
-/

/- Concrete rational computations are settled by `decide`; the kernel reduces
the core rational arithmetic, which is hidden behind `irreducible` by
default. -/
attribute [local semireducible] Rat.sub Rat.add Rat.mul Rat.inv

namespace SurfaceNets

/-- The 12 cube edges as endpoint pairs, mirroring `SurfaceNets.init`:
for each corner `i` in `0..7` and each axis bit `j ∈ {1,2,4}`, the pair
`(i, i ^^^ j)` is recorded when `i ≤ i ^^^ j`.  The JS code stores the same
pairs flattened into the 24-entry `cubeEdges` array. -/
def cubeEdges : List (ℕ × ℕ) :=
  (List.range 8).flatMap (fun i =>
    [1, 2, 4].filterMap (fun j =>
      let p := i ^^^ j
      if i ≤ p then some (i, p) else none))

/-- Edge `i`'s endpoint pair, i.e. `(cubeEdges[2*i], cubeEdges[2*i+1])` of the
JS flat array. -/
def cubeEdgePair (i : ℕ) : ℕ × ℕ := cubeEdges.getD i (0, 0)

/-- Entry `mask` of the 256-entry edge table built in `SurfaceNets.init`:
bit `j` is set when the two endpoints of edge `j` have different
inside/outside status under `mask`. -/
def edgeTableEntry (mask : ℕ) : ℕ :=
  (List.range 12).foldl (fun em j =>
    let e := cubeEdgePair j
    let a := mask.testBit e.1
    let b := mask.testBit e.2
    if a != b then em ||| (1 <<< j) else em) 0

/-- The eight corner offsets `(dx, dy, dz)` in the order the sampling loop of
`extract` visits them (`dz` outermost, then `dy`, then `dx`), so the list
index is the corner index `g = dx + 2*dy + 4*dz`. -/
def cornerOffsets : List (ℕ × ℕ × ℕ) :=
  (List.range 2).flatMap (fun dz =>
    (List.range 2).flatMap (fun dy =>
      (List.range 2).map (fun dx => (dx, dy, dz))))

/-- The eight corner samples of the cell with origin `(xPos, yPos, zPos)`:
one invocation of `densityFunc` per list entry, exactly as the corner loop of
`extract` performs them. -/
def sampleCorners (f : ℚ → ℚ → ℚ → ℚ) (xPos yPos zPos : ℚ)
    (scale : ℚ × ℚ × ℚ) : List ℚ :=
  cornerOffsets.map (fun d =>
    f (xPos + d.1 * scale.1) (yPos + d.2.1 * scale.2.1) (zPos + d.2.2 * scale.2.2))

/-- The 8-bit inside/outside mask: bit `g` is set when corner sample `g` is
negative (`mask |= val < 0 ? (1 << g) : 0`). -/
def cornerMask (grid : List ℚ) : ℕ :=
  (List.range 8).foldl (fun m g => if grid.getD g 0 < 0 then m ||| (1 <<< g) else m) 0

/-- Per-axis contribution of one crossing edge to the running vertex sum,
mirroring the inner `j` loop of `extract`: `a = e0 & k`, `b = e1 & k`;
if they differ the axis gets `a ? 1 - t : t`, otherwise `a ? 1 : 0`. -/
def axisContrib (e0 e1 : ℕ) (t : ℚ) (j : ℕ) : ℚ :=
  let a := e0.testBit j
  let b := e1.testBit j
  if a != b then (if a then 1 - t else t) else (if a then 1 else 0)

/-- The 3-component contribution of edge `i` (with crossing parameter
`t = g0 / (g0 - g1)` computed from the grid samples of its endpoints). -/
def edgeContrib (grid : List ℚ) (i : ℕ) : ℚ × ℚ × ℚ :=
  let e := cubeEdgePair i
  let g0 := grid.getD e.1 0
  let g1 := grid.getD e.2 0
  let t := g0 / (g0 - g1)
  (axisContrib e.1 e.2 t 0, axisContrib e.1 e.2 t 1, axisContrib e.1 e.2 t 2)

/-- One iteration of the edge-crossing accumulation loop of `extract`: if edge
`i` is a crossing edge, add its contribution to the per-axis sums and bump
`vertCount`. -/
def accumStep (grid : List ℚ) (edgeMask : ℕ) (acc : (ℚ × ℚ × ℚ) × ℕ) (i : ℕ) :
    (ℚ × ℚ × ℚ) × ℕ :=
  if edgeMask.testBit i then
    let c := edgeContrib grid i
    ((acc.1.1 + c.1, acc.1.2.1 + c.2.1, acc.1.2.2 + c.2.2), acc.2 + 1)
  else acc

/-- The edge-crossing accumulation loop of `extract`: over the 12 edge bits of
`edgeMask`, accumulate the per-axis sums `v` and the crossing count
`vertCount`. -/
def accumEdges (grid : List ℚ) (edgeMask : ℕ) : (ℚ × ℚ × ℚ) × ℕ :=
  (List.range 12).foldl (accumStep grid edgeMask) ((0, 0, 0), 0)

/-- State threaded through the cell march of `extract`.  `vbuf` models the
sparse `vertexBuffer` map (association list keyed by cell coordinate);
`calls` instruments the number of `densityFunc` invocations performed so far
(one per sampled corner). -/
structure ExtractState where
  vertices : List (ℚ × ℚ × ℚ)
  faces : List (ℕ × ℕ × ℕ)
  vbuf : List ((ℕ × ℕ × ℕ) × ℕ)
  calls : ℕ
deriving DecidableEq, Repr

/-- `vertexBuffer.get(getKey(x,y,z))`: lookup of a cell's vertex index. -/
def lookupV (vbuf : List ((ℕ × ℕ × ℕ) × ℕ)) (k : ℕ × ℕ × ℕ) : Option ℕ :=
  (vbuf.find? (fun e => e.1 == k)).map (fun e => e.2)

/-- One quad emission attempt of the face-stitching code: if all four vertex
lookups succeed, two triangles are appended (winding chosen by `mask & 1`);
if any lookup fails the face list is returned unchanged. -/
def quadFaces (vbuf : List ((ℕ × ℕ × ℕ) × ℕ)) (k0 k1 k2 k3 : ℕ × ℕ × ℕ)
    (mask : ℕ) (faces : List (ℕ × ℕ × ℕ)) : List (ℕ × ℕ × ℕ) :=
  match lookupV vbuf k0, lookupV vbuf k1, lookupV vbuf k2, lookupV vbuf k3 with
  | some v0, some v1, some v2, some v3 =>
      if mask.testBit 0 then faces ++ [(v0, v1, v2), (v0, v2, v3)]
      else faces ++ [(v0, v3, v2), (v0, v2, v1)]
  | _, _, _, _ => faces

/-- One guarded stitching direction: the quad is attempted only when the
direction's edge bit is set and both backward neighbours exist in the grid. -/
def stitchDir (vbuf : List ((ℕ × ℕ × ℕ) × ℕ)) (cond : Bool)
    (k0 k1 k2 k3 : ℕ × ℕ × ℕ) (mask : ℕ) (faces : List (ℕ × ℕ × ℕ)) :
    List (ℕ × ℕ × ℕ) :=
  if cond then quadFaces vbuf k0 k1 k2 k3 mask faces else faces

/-- The body of the triple cell loop of `extract` for the cell at integer
coordinates `c = (x, y, z)`, mirroring the source line by line: sample the 8
corners, form the mask, skip uniform cells, otherwise accumulate the crossing
edges, emit the averaged vertex, record its index, and attempt the three
backward quads. -/
def processCell (f : ℚ → ℚ → ℚ → ℚ) (bmin : ℚ × ℚ × ℚ) (scale : ℚ × ℚ × ℚ)
    (c : ℕ × ℕ × ℕ) (st : ExtractState) : ExtractState :=
  let x := c.1
  let y := c.2.1
  let z := c.2.2
  let xPos := bmin.1 + (x : ℚ) * scale.1
  let yPos := bmin.2.1 + (y : ℚ) * scale.2.1
  let zPos := bmin.2.2 + (z : ℚ) * scale.2.2
  let grid := sampleCorners f xPos yPos zPos scale
  let st := { st with calls := st.calls + grid.length }
  let mask := cornerMask grid
  if mask = 0 ∨ mask = 255 then st
  else
    let edgeMask := edgeTableEntry mask
    let vc := accumEdges grid edgeMask
    let v := vc.1
    let s : ℚ := 1 / (vc.2 : ℚ)
    let vertIdx := st.vertices.length
    let vertices := st.vertices ++
      [(xPos + v.1 * s * scale.1, yPos + v.2.1 * s * scale.2.1,
        zPos + v.2.2 * s * scale.2.2)]
    let vbuf := ((x, y, z), vertIdx) :: st.vbuf
    let faces := stitchDir vbuf (edgeMask.testBit 0 && decide (0 < y) && decide (0 < z))
      (x, y, z) (x, y - 1, z) (x, y - 1, z - 1) (x, y, z - 1) mask st.faces
    let faces := stitchDir vbuf (edgeMask.testBit 1 && decide (0 < x) && decide (0 < z))
      (x, y, z) (x, y, z - 1) (x - 1, y, z - 1) (x - 1, y, z) mask faces
    let faces := stitchDir vbuf (edgeMask.testBit 2 && decide (0 < x) && decide (0 < y))
      (x, y, z) (x - 1, y, z) (x - 1, y - 1, z) (x, y - 1, z) mask faces
    { vertices := vertices, faces := faces, vbuf := vbuf, calls := st.calls }

/-- Cell coordinates in iteration order of `extract`: `z` outermost, then `y`,
then `x`, each ranging over `[0, n)` where `n = resolution - 1`. -/
def cellList (n : ℕ) : List (ℕ × ℕ × ℕ) :=
  (List.range n).flatMap (fun z =>
    (List.range n).flatMap (fun y =>
      (List.range n).map (fun x => (x, y, z))))

/-- Extraction bounds `[min, max]` per axis. -/
structure Bounds where
  min : ℚ × ℚ × ℚ
  max : ℚ × ℚ × ℚ
deriving DecidableEq, Repr

/-- Per-axis cell size `scale = (max - min) / (dims - 1)`. -/
def extractScale (bounds : Bounds) (resolution : ℕ) : ℚ × ℚ × ℚ :=
  ((bounds.max.1 - bounds.min.1) / ((resolution : ℚ) - 1),
   (bounds.max.2.1 - bounds.min.2.1) / ((resolution : ℚ) - 1),
   (bounds.max.2.2 - bounds.min.2.2) / ((resolution : ℚ) - 1))

/-- `SurfaceNets.extract`: march over every cell, returning the final state
(the JS function returns its `vertices` and `faces` components; `calls`
additionally instruments the number of `densityFunc` invocations). -/
def extract (f : ℚ → ℚ → ℚ → ℚ) (bounds : Bounds) (resolution : ℕ) :
    ExtractState :=
  (cellList (resolution - 1)).foldl
    (fun st c => processCell f bounds.min (extractScale bounds resolution) c st)
    ⟨[], [], [], 0⟩

/-! Spec-side definitions, written from the specification's wording, used to
state the claims about the vertex position (claim C5). -/

/-- World-space origin of the cell at integer coordinates `c`. -/
def cellOrigin (bmin : ℚ × ℚ × ℚ) (scale : ℚ × ℚ × ℚ) (c : ℕ × ℕ × ℕ) :
    ℚ × ℚ × ℚ :=
  (bmin.1 + (c.1 : ℚ) * scale.1,
   bmin.2.1 + (c.2.1 : ℚ) * scale.2.1,
   bmin.2.2 + (c.2.2 : ℚ) * scale.2.2)

/-- The corner samples of the cell at integer coordinates `c`. -/
def cellGrid (f : ℚ → ℚ → ℚ → ℚ) (bmin : ℚ × ℚ × ℚ) (scale : ℚ × ℚ × ℚ)
    (c : ℕ × ℕ × ℕ) : List ℚ :=
  sampleCorners f (cellOrigin bmin scale c).1 (cellOrigin bmin scale c).2.1
    (cellOrigin bmin scale c).2.2 scale

/-- Local coordinate of corner `e` on axis `j`: the value of bit `j`. -/
def cornerCoord (e : ℕ) (j : ℕ) : ℚ := if e.testBit j then 1 else 0

/-- Zero-crossing interpolation point of the edge with endpoints `e0`, `e1`
at crossing parameter `t`: the point `corner(e0) + t * (corner(e1) - corner(e0))`. -/
def interpPoint (e0 e1 : ℕ) (t : ℚ) : ℚ × ℚ × ℚ :=
  (cornerCoord e0 0 + t * (cornerCoord e1 0 - cornerCoord e0 0),
   cornerCoord e0 1 + t * (cornerCoord e1 1 - cornerCoord e0 1),
   cornerCoord e0 2 + t * (cornerCoord e1 2 - cornerCoord e0 2))

/-- Crossing parameter `t = s0 / (s0 - s1)` of edge `i` from the grid samples
of its two endpoints. -/
def edgeT (grid : List ℚ) (i : ℕ) : ℚ :=
  grid.getD (cubeEdgePair i).1 0 /
    (grid.getD (cubeEdgePair i).1 0 - grid.getD (cubeEdgePair i).2 0)

/-- Indices of the crossing edges of a cell with corner mask `mask`. -/
def crossingEdges (mask : ℕ) : List ℕ :=
  (List.range 12).filter (fun i => (edgeTableEntry mask).testBit i)

/-- The zero-crossing interpolation points of all crossing edges. -/
def crossingPoints (grid : List ℚ) (mask : ℕ) : List (ℚ × ℚ × ℚ) :=
  (crossingEdges mask).map (fun i =>
    interpPoint (cubeEdgePair i).1 (cubeEdgePair i).2 (edgeT grid i))

/-- Componentwise arithmetic mean of a list of points. -/
def meanPoint (l : List (ℚ × ℚ × ℚ)) : ℚ × ℚ × ℚ :=
  ((l.map (fun p => p.1)).sum / (l.length : ℚ),
   (l.map (fun p => p.2.1)).sum / (l.length : ℚ),
   (l.map (fun p => p.2.2)).sum / (l.length : ℚ))

/-- The world-space vertex position the specification predicts for cell `c`:
cell origin plus the mean of the crossing-edge interpolation points, scaled
per axis by the cell size. -/
def specWorldVertex (f : ℚ → ℚ → ℚ → ℚ) (bmin : ℚ × ℚ × ℚ)
    (scale : ℚ × ℚ × ℚ) (c : ℕ × ℕ × ℕ) : ℚ × ℚ × ℚ :=
  let grid := cellGrid f bmin scale c
  let m := meanPoint (crossingPoints grid (cornerMask grid))
  ((cellOrigin bmin scale c).1 + m.1 * scale.1,
   (cellOrigin bmin scale c).2.1 + m.2.1 * scale.2.1,
   (cellOrigin bmin scale c).2.2 + m.2.2 * scale.2.2)

end SurfaceNets

namespace SurfaceNets

/-! Helper lemmas. -/

/-- The corner sampling loop performs exactly 8 field invocations. -/
theorem sampleCorners_length (f : ℚ → ℚ → ℚ → ℚ) (xPos yPos zPos : ℚ)
    (scale : ℚ × ℚ × ℚ) : (sampleCorners f xPos yPos zPos scale).length = 8 :=
  rfl

/-- Each cell adds exactly 8 to the instrumented invocation counter,
whether or not it is skipped as uniform. -/
theorem processCell_calls (f : ℚ → ℚ → ℚ → ℚ) (bmin scale : ℚ × ℚ × ℚ)
    (c : ℕ × ℕ × ℕ) (st : ExtractState) :
    (processCell f bmin scale c st).calls = st.calls + 8 := by
  simp only [processCell]
  split
  · simp [sampleCorners_length]
  · simp [sampleCorners_length]

/-- Folding the cell loop over any cell list adds 8 calls per cell. -/
theorem foldl_processCell_calls (f : ℚ → ℚ → ℚ → ℚ) (bmin scale : ℚ × ℚ × ℚ)
    (l : List (ℕ × ℕ × ℕ)) :
    ∀ st : ExtractState,
      ((l.foldl (fun st c => processCell f bmin scale c st) st).calls =
        st.calls + 8 * l.length) := by
  induction l with
  | nil => intro st; simp
  | cons c l ih =>
      intro st
      simp only [List.foldl_cons, List.length_cons, ih, processCell_calls]
      ring

/-- Length of a `flatMap` over `range n` whose pieces all have length `k`. -/
theorem length_flatMap_range {β : Type} (n k : ℕ) (f : ℕ → List β)
    (h : ∀ z ∈ List.range n, (f z).length = k) :
    ((List.range n).flatMap f).length = n * k := by
  rw [List.length_flatMap]
  rw [@List.map_congr_left _ _ _ _ (fun _ => k) (by intro a ha; simp [h a ha])]
  simp [List.map_const', List.sum_replicate, mul_comm]

/-- The cell list has `n ^ 3` entries. -/
theorem cellList_length (n : ℕ) : (cellList n).length = n ^ 3 := by
  unfold cellList
  rw [length_flatMap_range n (n * n) _ (by
    intro z hz
    rw [length_flatMap_range n n _ (by intro y hy; simp)])]
  ring

end SurfaceNets


namespace SurfaceNets

/-- The accumulation loop sums the contributions of the crossing edges of the
list componentwise and counts them. -/
theorem foldl_accumStep (grid : List ℚ) (em : ℕ) (l : List ℕ) :
    ∀ (v : ℚ × ℚ × ℚ) (n : ℕ),
      l.foldl (accumStep grid em) (v, n) =
        ((v.1 + ((l.filter (fun i => em.testBit i)).map
            (fun i => (edgeContrib grid i).1)).sum,
          v.2.1 + ((l.filter (fun i => em.testBit i)).map
            (fun i => (edgeContrib grid i).2.1)).sum,
          v.2.2 + ((l.filter (fun i => em.testBit i)).map
            (fun i => (edgeContrib grid i).2.2)).sum),
         n + l.countP (fun i => em.testBit i)) := by
  induction l with
  | nil => intro v n; simp
  | cons i l ih =>
      intro v n
      by_cases h : em.testBit i
      · simp only [List.foldl_cons, accumStep, h, if_true, List.filter_cons,
          List.countP_cons, ih]
        simp only [h, if_true, List.map_cons, List.sum_cons, Prod.mk.injEq]
        refine ⟨⟨by ring, by ring, by ring⟩, by omega⟩
      · simp only [List.foldl_cons, accumStep, h, if_false, List.filter_cons,
          List.countP_cons, ih]
        simp [h]

/-- Closed form of `accumEdges`: componentwise sums of the crossing-edge
contributions, paired with the number of crossing edges. -/
theorem accumEdges_eq (grid : List ℚ) (em : ℕ) :
    accumEdges grid em =
      (((((List.range 12).filter (fun i => em.testBit i)).map
            (fun i => (edgeContrib grid i).1)).sum,
        (((List.range 12).filter (fun i => em.testBit i)).map
            (fun i => (edgeContrib grid i).2.1)).sum,
        (((List.range 12).filter (fun i => em.testBit i)).map
            (fun i => (edgeContrib grid i).2.2)).sum),
       (List.range 12).countP (fun i => em.testBit i)) := by
  unfold accumEdges
  rw [foldl_accumStep]
  simp

set_option maxRecDepth 4000 in
/-- Every strictly mixed mask has a set bit in its edge-table entry. -/
theorem edgeTable_pos : ∀ i : Fin 256, 0 < i.val → i.val < 255 →
    0 < edgeTableEntry i.val := by decide

set_option maxRecDepth 4000 in
/-- Every strictly mixed mask has a crossing edge among the 12 cube edges. -/
theorem edgeTable_countP_pos : ∀ i : Fin 256, 0 < i.val → i.val < 255 →
    0 < (List.range 12).countP (fun j => (edgeTableEntry i.val).testBit j) := by
  decide

end SurfaceNets

namespace SurfaceNets

set_option maxRecDepth 8000 in
/-- C4: for every 8-bit corner mask `i` and edge index `j < 12`, bit `j` of
edge-table entry `i` is set iff the two corner indices of edge `j` have
differing inside/outside status under mask `i`; the 12 edges are exactly the
corner pairs differing in exactly one bit; and entries `0x00` and `0xFF` are
zero. -/
theorem c4_edge_table_entries :
    (∀ i : Fin 256, ∀ j : Fin 12,
      (edgeTableEntry i.val).testBit j.val =
        (i.val.testBit (cubeEdgePair j.val).1 !=
          i.val.testBit (cubeEdgePair j.val).2))
    ∧ (∀ a b : Fin 8, ((a.val, b.val) ∈ cubeEdges ↔
        (a.val < b.val ∧
          (a.val ^^^ b.val = 1 ∨ a.val ^^^ b.val = 2 ∨ a.val ^^^ b.val = 4))))
    ∧ edgeTableEntry 0 = 0 ∧ edgeTableEntry 255 = 0 := by
  decide

set_option maxRecDepth 4000 in
/-- C6: the edge-table entry of the complemented mask `~mask & 0xFF` equals
the entry of the mask itself, for all 256 masks. -/
theorem c6_complement_invariant :
    ∀ i : Fin 256, edgeTableEntry (255 ^^^ i.val) = edgeTableEntry i.val := by
  decide

/-- C8: every corner mask strictly between `0x00` and `0xFF` has a nonzero
edge-table entry, so the crossing-edge count accumulated for a non-uniform
cell is positive and the averaging division `1 / vertCount` never divides by
zero. -/
theorem c8_no_zero_crossing_division (i : Fin 256) (h0 : 0 < i.val)
    (h255 : i.val < 255) :
    0 < edgeTableEntry i.val ∧
      ∀ grid : List ℚ, 0 < (accumEdges grid (edgeTableEntry i.val)).2 := by
  refine ⟨edgeTable_pos i h0 h255, ?_⟩
  intro grid
  rw [accumEdges_eq]
  exact edgeTable_countP_pos i h0 h255

/-- Witness for C8 at the concrete mask `1`. -/
theorem c8_witness :
    0 < (1 : ℕ) ∧ (1 : ℕ) < 255 ∧
      0 < (accumEdges [] (edgeTableEntry 1)).2 :=
  ⟨by decide, by decide,
    (c8_no_zero_crossing_division ⟨1, by decide⟩ (by decide) (by decide)).2 []⟩

/-- C1 (counterexample): at resolution 3 an extraction performs 64 field
invocations, not `3³ = 27` — the claimed count is wrong already here. -/
theorem c1_counterexample :
    (extract (fun _ _ _ => 1) ⟨(0, 0, 0), (1, 1, 1)⟩ 3).calls ≠ 3 ^ 3 := by
  decide

/-- C1 (amended): every extraction invokes the field evaluator exactly
`8 * (resolution - 1)³` times — 8 per cell over the `(resolution - 1)³`
cells, shared corners re-sampled by repeated calls with no caching. -/
theorem c1_call_count (f : ℚ → ℚ → ℚ → ℚ) (bounds : Bounds) (resolution : ℕ) :
    (extract f bounds resolution).calls = 8 * (resolution - 1) ^ 3 := by
  unfold extract
  rw [foldl_processCell_calls, cellList_length]
  simp

/-- C7: if any of the four required vertices of a quad is missing from the
vertex buffer, the quad is silently skipped and the face list is returned
unchanged. -/
theorem c7_missing_vertex_skips_quad (vbuf : List ((ℕ × ℕ × ℕ) × ℕ))
    (k0 k1 k2 k3 : ℕ × ℕ × ℕ) (mask : ℕ) (faces : List (ℕ × ℕ × ℕ))
    (h : lookupV vbuf k0 = none ∨ lookupV vbuf k1 = none ∨
         lookupV vbuf k2 = none ∨ lookupV vbuf k3 = none) :
    quadFaces vbuf k0 k1 k2 k3 mask faces = faces := by
  unfold quadFaces
  split
  · rcases h with h | h | h | h <;> simp_all
  · rfl

/-- Witness for C7: an empty vertex buffer misses every vertex and the quad
emission leaves the face list unchanged. -/
theorem c7_witness :
    (lookupV [] (0, 0, 0) = none ∨ lookupV [] (0, 1, 0) = none ∨
     lookupV [] (0, 1, 1) = none ∨ lookupV [] (0, 0, 1) = none) ∧
    quadFaces [] (0, 0, 0) (0, 1, 0) (0, 1, 1) (0, 0, 1) 5 [] = [] :=
  ⟨Or.inl rfl, c7_missing_vertex_skips_quad [] _ _ _ _ 5 [] (Or.inl rfl)⟩

end SurfaceNets

namespace SurfaceNets

/-- The per-axis loop contribution equals the corresponding coordinate of the
linear interpolation `corner(e0) + t * (corner(e1) - corner(e0))`. -/
theorem axisContrib_eq (e0 e1 : ℕ) (t : ℚ) (j : ℕ) :
    axisContrib e0 e1 t j =
      cornerCoord e0 j + t * (cornerCoord e1 j - cornerCoord e0 j) := by
  unfold axisContrib cornerCoord
  by_cases h0 : e0.testBit j <;> by_cases h1 : e1.testBit j <;>
    (simp [h0, h1]; try ring)

/-- Each edge's accumulated contribution is exactly its zero-crossing
interpolation point. -/
theorem edgeContrib_eq (grid : List ℚ) (i : ℕ) :
    edgeContrib grid i =
      interpPoint (cubeEdgePair i).1 (cubeEdgePair i).2 (edgeT grid i) := by
  unfold edgeContrib interpPoint edgeT
  simp only [axisContrib_eq]

/-- `accumEdges` computes the componentwise sum of the crossing-edge
interpolation points and their number. -/
theorem accumEdges_spec (grid : List ℚ) (mask : ℕ) :
    accumEdges grid (edgeTableEntry mask) =
      ((((crossingPoints grid mask).map (fun p => p.1)).sum,
        ((crossingPoints grid mask).map (fun p => p.2.1)).sum,
        ((crossingPoints grid mask).map (fun p => p.2.2)).sum),
       (crossingPoints grid mask).length) := by
  rw [accumEdges_eq]
  simp only [crossingPoints, crossingEdges, List.map_map, List.length_map,
    Function.comp, Prod.mk.injEq]
  refine ⟨⟨?_, ?_, ?_⟩, List.countP_eq_length_filter _ _⟩ <;>
    exact congrArg List.sum
      (List.map_congr_left (fun i _ => by simp [edgeContrib_eq]))

/-- C5: for a surface-crossing cell, the vertex emitted by `processCell`
(with the scale used by `extract`, i.e. bounds extent over `resolution - 1`)
is the cell origin plus the arithmetic mean of the zero-crossing
interpolation points of all crossing edges, scaled per axis. -/
theorem c5_vertex_is_edge_crossing_mean (f : ℚ → ℚ → ℚ → ℚ) (bounds : Bounds)
    (res : ℕ) (c : ℕ × ℕ × ℕ) (st : ExtractState)
    (h0 : cornerMask (cellGrid f bounds.min (extractScale bounds res) c) ≠ 0)
    (h255 : cornerMask (cellGrid f bounds.min (extractScale bounds res) c) ≠ 255) :
    (processCell f bounds.min (extractScale bounds res) c st).vertices =
      st.vertices ++ [specWorldVertex f bounds.min (extractScale bounds res) c] := by
  simp only [cellGrid, cellOrigin] at h0 h255
  simp only [processCell]
  rw [if_neg (not_or.mpr ⟨h0, h255⟩)]
  simp only [specWorldVertex, meanPoint, cellGrid, cellOrigin]
  rw [accumEdges_spec]
  congr 1
  congr 1
  simp only [Prod.mk.injEq]
  refine ⟨by ring, by ring, by ring⟩

end SurfaceNets

namespace SurfaceNets

/-- Witness for C5 at a concrete crossing cell: the plane field `x - 1/2`
over the unit cube at resolution 2, cell `(0,0,0)`. -/
theorem c5_witness :
    (cornerMask (cellGrid (fun x _ _ => x - 1/2) (Bounds.mk (0, 0, 0) (1, 1, 1)).min
        (extractScale (Bounds.mk (0, 0, 0) (1, 1, 1)) 2) (0, 0, 0)) ≠ 0) ∧
    (cornerMask (cellGrid (fun x _ _ => x - 1/2) (Bounds.mk (0, 0, 0) (1, 1, 1)).min
        (extractScale (Bounds.mk (0, 0, 0) (1, 1, 1)) 2) (0, 0, 0)) ≠ 255) ∧
    (processCell (fun x _ _ => x - 1/2) (Bounds.mk (0, 0, 0) (1, 1, 1)).min
        (extractScale (Bounds.mk (0, 0, 0) (1, 1, 1)) 2) (0, 0, 0)
        ⟨[], [], [], 0⟩).vertices =
      [] ++ [specWorldVertex (fun x _ _ => x - 1/2)
        (Bounds.mk (0, 0, 0) (1, 1, 1)).min
        (extractScale (Bounds.mk (0, 0, 0) (1, 1, 1)) 2) (0, 0, 0)] :=
  ⟨by decide, by decide,
    c5_vertex_is_edge_crossing_mean (fun x _ _ => x - 1/2)
      (Bounds.mk (0, 0, 0) (1, 1, 1)) 2 (0, 0, 0) ⟨[], [], [], 0⟩
      (by decide) (by decide)⟩

/-! Invariant machinery for claim C10: face indices always reference
existing vertices. -/

/-- All face index triples reference vertex indices below `n`. -/
def facesBounded (faces : List (ℕ × ℕ × ℕ)) (n : ℕ) : Prop :=
  ∀ t ∈ faces, t.1 < n ∧ t.2.1 < n ∧ t.2.2 < n

/-- All vertex-buffer entries hold vertex indices below `n`. -/
def vbufBounded (vbuf : List ((ℕ × ℕ × ℕ) × ℕ)) (n : ℕ) : Prop :=
  ∀ e ∈ vbuf, e.2 < n

/-- Invariant of the cell march: buffer entries and face indices stay below
the number of emitted vertices. -/
def stateOK (st : ExtractState) : Prop :=
  vbufBounded st.vbuf st.vertices.length ∧
    facesBounded st.faces st.vertices.length

theorem lookupV_lt (vbuf : List ((ℕ × ℕ × ℕ) × ℕ)) (n : ℕ)
    (hb : vbufBounded vbuf n) (k : ℕ × ℕ × ℕ) (v : ℕ)
    (h : lookupV vbuf k = some v) : v < n := by
  unfold lookupV at h
  cases hf : vbuf.find? (fun e => e.1 == k) with
  | none => rw [hf] at h; simp at h
  | some e =>
      rw [hf] at h
      simp only [Option.map_some'] at h
      cases h
      exact hb e (List.mem_of_find?_eq_some hf)

theorem facesBounded_mono (faces : List (ℕ × ℕ × ℕ)) (n m : ℕ) (hnm : n ≤ m)
    (h : facesBounded faces n) : facesBounded faces m := by
  intro t ht
  obtain ⟨h1, h2, h3⟩ := h t ht
  exact ⟨lt_of_lt_of_le h1 hnm, lt_of_lt_of_le h2 hnm, lt_of_lt_of_le h3 hnm⟩

theorem quadFaces_bounded (vbuf : List ((ℕ × ℕ × ℕ) × ℕ)) (n : ℕ)
    (hb : vbufBounded vbuf n) (k0 k1 k2 k3 : ℕ × ℕ × ℕ) (mask : ℕ)
    (faces : List (ℕ × ℕ × ℕ)) (hf : facesBounded faces n) :
    facesBounded (quadFaces vbuf k0 k1 k2 k3 mask faces) n := by
  unfold quadFaces
  split
  next v0 v1 v2 v3 h0 h1 h2 h3 =>
    have hv0 := lookupV_lt vbuf n hb k0 v0 h0
    have hv1 := lookupV_lt vbuf n hb k1 v1 h1
    have hv2 := lookupV_lt vbuf n hb k2 v2 h2
    have hv3 := lookupV_lt vbuf n hb k3 v3 h3
    split
    · intro t ht
      rcases List.mem_append.mp ht with h | h
      · exact hf t h
      · simp only [List.mem_cons, List.mem_singleton] at h
        rcases h with rfl | rfl | h
        · exact ⟨hv0, hv1, hv2⟩
        · exact ⟨hv0, hv2, hv3⟩
        · cases h
    · intro t ht
      rcases List.mem_append.mp ht with h | h
      · exact hf t h
      · simp only [List.mem_cons, List.mem_singleton] at h
        rcases h with rfl | rfl | h
        · exact ⟨hv0, hv3, hv2⟩
        · exact ⟨hv0, hv2, hv1⟩
        · cases h
  next => exact hf

theorem stitchDir_bounded (vbuf : List ((ℕ × ℕ × ℕ) × ℕ)) (n : ℕ)
    (hb : vbufBounded vbuf n) (cond : Bool) (k0 k1 k2 k3 : ℕ × ℕ × ℕ)
    (mask : ℕ) (faces : List (ℕ × ℕ × ℕ)) (hf : facesBounded faces n) :
    facesBounded (stitchDir vbuf cond k0 k1 k2 k3 mask faces) n := by
  unfold stitchDir
  split
  · exact quadFaces_bounded vbuf n hb k0 k1 k2 k3 mask faces hf
  · exact hf

/-- Pushing one vertex, its buffer entry, and up to three stitched quads
preserves the index invariant. -/
theorem stateOK_push (st : ExtractState) (V : ℚ × ℚ × ℚ) (key : ℕ × ℕ × ℕ)
    (c1 c2 c3 : Bool) (mask calls : ℕ)
    (k01 k11 k21 k31 k02 k12 k22 k32 k03 k13 k23 k33 : ℕ × ℕ × ℕ)
    (h : stateOK st) :
    stateOK
      { vertices := st.vertices ++ [V],
        faces :=
          stitchDir ((key, st.vertices.length) :: st.vbuf) c3 k03 k13 k23 k33
            mask
            (stitchDir ((key, st.vertices.length) :: st.vbuf) c2 k02 k12 k22
              k32 mask
              (stitchDir ((key, st.vertices.length) :: st.vbuf) c1 k01 k11 k21
                k31 mask st.faces)),
        vbuf := (key, st.vertices.length) :: st.vbuf,
        calls := calls } := by
  obtain ⟨hv, hf⟩ := h
  have hlen : (st.vertices ++ [V]).length = st.vertices.length + 1 := by simp
  have hb : vbufBounded ((key, st.vertices.length) :: st.vbuf)
      (st.vertices ++ [V]).length := by
    intro e he
    rw [hlen]
    rcases List.mem_cons.mp he with rfl | he
    · omega
    · have := hv e he; omega
  refine ⟨hb, ?_⟩
  have hf1 : facesBounded st.faces (st.vertices ++ [V]).length := by
    rw [hlen]
    exact facesBounded_mono _ _ _ (Nat.le_succ _) hf
  exact stitchDir_bounded _ _ hb _ _ _ _ _ _ _
    (stitchDir_bounded _ _ hb _ _ _ _ _ _ _
      (stitchDir_bounded _ _ hb _ _ _ _ _ _ _ hf1))

/-- `processCell` preserves the index invariant. -/
theorem processCell_stateOK (f : ℚ → ℚ → ℚ → ℚ) (bmin scale : ℚ × ℚ × ℚ)
    (c : ℕ × ℕ × ℕ) (st : ExtractState) (h : stateOK st) :
    stateOK (processCell f bmin scale c st) := by
  obtain ⟨hv, hf⟩ := h
  simp only [processCell]
  split
  · exact ⟨hv, hf⟩
  · apply stateOK_push
    exact ⟨hv, hf⟩

/-- The full extraction satisfies the index invariant. -/
theorem extract_stateOK (f : ℚ → ℚ → ℚ → ℚ) (bounds : Bounds) (res : ℕ) :
    stateOK (extract f bounds res) := by
  unfold extract
  have hgen : ∀ (l : List (ℕ × ℕ × ℕ)) (st : ExtractState), stateOK st →
      stateOK (l.foldl
        (fun st c => processCell f bounds.min (extractScale bounds res) c st)
        st) := by
    intro l
    induction l with
    | nil => intro st h; exact h
    | cons c l ih =>
        intro st h
        exact ih _ (processCell_stateOK f bounds.min (extractScale bounds res)
          c st h)
  refine hgen _ _ ⟨?_, ?_⟩
  · intro e he
    cases he
  · intro t ht
    cases ht

/-- C10: every face triple produced by `extract` references only existing
vertices: each component is strictly below the length of the vertex list. -/
theorem c10_face_indices_in_range (f : ℚ → ℚ → ℚ → ℚ) (bounds : Bounds)
    (res : ℕ) (t : ℕ × ℕ × ℕ) (h : t ∈ (extract f bounds res).faces) :
    t.1 < (extract f bounds res).vertices.length ∧
    t.2.1 < (extract f bounds res).vertices.length ∧
    t.2.2 < (extract f bounds res).vertices.length :=
  (extract_stateOK f bounds res).2 t h

/-- Witness for C10: a concrete extraction that emits faces, with all indices
below the vertex count. -/
theorem c10_witness :
    ((3, 2, 0) : ℕ × ℕ × ℕ) ∈
      (extract (fun _ _ z => z - 1/2) ⟨(0, 0, 0), (2, 2, 2)⟩ 3).faces ∧
    (3 < (extract (fun _ _ z => z - 1/2) ⟨(0, 0, 0), (2, 2, 2)⟩ 3).vertices.length ∧
     2 < (extract (fun _ _ z => z - 1/2) ⟨(0, 0, 0), (2, 2, 2)⟩ 3).vertices.length ∧
     0 < (extract (fun _ _ z => z - 1/2) ⟨(0, 0, 0), (2, 2, 2)⟩ 3).vertices.length) :=
  ⟨by decide,
    c10_face_indices_in_range (fun _ _ z => z - 1/2) ⟨(0, 0, 0), (2, 2, 2)⟩ 3
      (3, 2, 0) (by decide)⟩

end SurfaceNets

/-!
Part 2: the `TinyPlanet` signed distance function (`src` part `TinyPlanet`
class).  JS numbers are modelled as real numbers `ℝ`; the separate
`Option ℝ` model below (`sdfJs`) additionally tracks non-finite values for
the centre-degeneracy claim.
-/

namespace TinyPlanet

/-- The fixed 256-entry permutation base table `p` of `TinyPlanet.initNoise`. -/
def permBase : List ℕ :=
  [151, 160, 137, 91, 90, 15, 131, 13, 201, 95, 96, 53, 194, 233, 7, 225,
  140, 36, 103, 30, 69, 142, 8, 99, 37, 240, 21, 10, 23, 190, 6, 148, 247,
  120, 234, 75, 0, 26, 197, 62, 94, 252, 219, 203, 117, 35, 11, 32, 57, 177,
  33, 88, 237, 149, 56, 87, 174, 20, 125, 136, 171, 168, 68, 175, 74, 165,
  71, 134, 139, 48, 27, 166, 77, 146, 158, 231, 83, 111, 229, 122, 60, 211,
  133, 230, 220, 105, 92, 41, 55, 46, 245, 40, 244, 102, 143, 54, 65, 25,
  63, 161, 1, 216, 80, 73, 209, 76, 132, 187, 208, 89, 18, 169, 200, 196,
  135, 130, 116, 188, 159, 86, 164, 100, 109, 198, 173, 186, 3, 64, 52, 217,
  226, 250, 124, 123, 5, 202, 38, 147, 118, 126, 255, 82, 85, 212, 207, 206,
  59, 227, 47, 16, 58, 17, 182, 189, 28, 42, 223, 183, 170, 213, 119, 248,
  152, 2, 44, 154, 163, 70, 221, 153, 101, 155, 167, 43, 172, 9, 129, 22,
  39, 253, 19, 98, 108, 110, 79, 113, 224, 232, 178, 185, 112, 104, 218,
  246, 97, 228, 251, 34, 242, 193, 238, 210, 144, 12, 191, 179, 162, 241,
  81, 51, 145, 235, 249, 14, 239, 107, 49, 192, 214, 31, 181, 199, 106, 157,
  184, 84, 204, 176, 115, 121, 50, 45, 127, 4, 150, 254, 138, 236, 205, 93,
  222, 114, 67, 29, 24, 72, 243, 141, 128, 195, 78, 66, 215, 61, 156, 180]

/-- The doubled 512-entry table built in `initNoise`:
`perm[i] = perm[i + 256] = p[i]`. -/
def permTable : List ℕ := permBase ++ permBase

/-- `this.perm[i]` lookup. -/
def perm (i : ℕ) : ℕ := permTable.getD i 0

/-- `fade(t) = t*t*t*(t*(t*6-15)+10)`. -/
noncomputable def fade (t : ℝ) : ℝ := t * t * t * (t * (t * 6 - 15) + 10)

/-- `lerp(a, b, t) = a + t*(b-a)`. -/
noncomputable def lerp (a b t : ℝ) : ℝ := a + t * (b - a)

/-- `grad(hash, x, y, z)`: 4-bit hash-driven gradient dot product. -/
noncomputable def grad (hash : ℕ) (x y z : ℝ) : ℝ :=
  let h := hash &&& 15
  let u := if h < 8 then x else y
  let v := if h < 4 then y else if h = 12 ∨ h = 14 then x else z
  (if h &&& 1 = 0 then u else -u) + (if h &&& 2 = 0 then v else -v)

/-- `noise3D(x, y, z)`: Perlin noise with permutation-table hashing, fade
interpolation and trilinear blend, mirroring the source (the `& 255` of the
JS lattice coordinates is `⌊·⌋ % 256`, two's complement on 8 bits). -/
noncomputable def noise3D (x y z : ℝ) : ℝ :=
  let X : ℕ := (⌊x⌋ % 256).toNat
  let Y : ℕ := (⌊y⌋ % 256).toNat
  let Z : ℕ := (⌊z⌋ % 256).toNat
  let xf : ℝ := x - ⌊x⌋
  let yf : ℝ := y - ⌊y⌋
  let zf : ℝ := z - ⌊z⌋
  let u := fade xf
  let v := fade yf
  let w := fade zf
  let A := perm X + Y
  let AA := perm A + Z
  let AB := perm (A + 1) + Z
  let B := perm (X + 1) + Y
  let BA := perm B + Z
  let BB := perm (B + 1) + Z
  lerp
    (lerp (lerp (grad (perm AA) xf yf zf) (grad (perm BA) (xf - 1) yf zf) u)
      (lerp (grad (perm AB) xf (yf - 1) zf)
        (grad (perm BB) (xf - 1) (yf - 1) zf) u) v)
    (lerp (lerp (grad (perm (AA + 1)) xf yf (zf - 1))
        (grad (perm (BA + 1)) (xf - 1) yf (zf - 1)) u)
      (lerp (grad (perm (AB + 1)) xf (yf - 1) (zf - 1))
        (grad (perm (BB + 1)) (xf - 1) (yf - 1) (zf - 1)) u) v) w

/-- One CSG modification `{position, radius, add}` pushed by `mine`/`place`. -/
structure Modification where
  px : ℝ
  py : ℝ
  pz : ℝ
  radius : ℝ
  add : Bool

/-- The planet state entering `sdf`: centre, radius, modification list. -/
structure Planet where
  cx : ℝ
  cy : ℝ
  cz : ℝ
  radius : ℝ
  modifications : List Modification

/-- `TinyPlanet.sdf(x, y, z)`: base sphere distance, minus the four noise
terrain layers, then the CSG modification fold, mirroring the source. -/
noncomputable def sdf (p : Planet) (x y z : ℝ) : ℝ :=
  let dx := x - p.cx
  let dy := y - p.cy
  let dz := z - p.cz
  let distFromCenter := Real.sqrt (dx * dx + dy * dy + dz * dz)
  let dist0 := distFromCenter - p.radius
  let nx := dx / distFromCenter
  let ny := dy / distFromCenter
  let nz := dz / distFromCenter
  let continentNoise := noise3D (nx * 2) (ny * 2) (nz * 2)
  let continentHeight := continentNoise * p.radius * 0.08
  let mountainNoise1 := noise3D (nx * 4 + 50) (ny * 4 + 50) (nz * 4 + 50)
  let ridged := 1.0 - |mountainNoise1|
  let mountainHeight := ridged ^ 2 * p.radius * 0.15
  let hillNoise := noise3D (nx * 10) (ny * 10) (nz * 10)
  let hillHeight := hillNoise * p.radius * 0.03
  let microNoise1 := noise3D (nx * 25) (ny * 25) (nz * 25)
  let microNoise2 := noise3D (nx * 50) (ny * 50) (nz * 50)
  let microHeight := (microNoise1 * 0.015 + microNoise2 * 0.008) * p.radius
  let dist1 := dist0 - continentHeight - mountainHeight - hillHeight - microHeight
  p.modifications.foldl (fun dist m =>
    let mdx := x - m.px
    let mdy := y - m.py
    let mdz := z - m.pz
    let modDist := Real.sqrt (mdx * mdx + mdy * mdy + mdz * mdz) - m.radius
    if m.add then min dist modDist else max dist (-modDist)) dist1

/-- `TinyPlanet.mine(position, radius)`: append a subtract modification
(the mesh rebuild it triggers is outside the field evaluator). -/
def mine (p : Planet) (px py pz r : ℝ) : Planet :=
  { p with modifications := p.modifications ++ [⟨px, py, pz, r, false⟩] }

/-- `TinyPlanet.place(position, radius)`: append an add modification. -/
def place (p : Planet) (px py pz r : ℝ) : Planet :=
  { p with modifications := p.modifications ++ [⟨px, py, pz, r, true⟩] }

/-! Spec-side definitions, written from the specification's wording, for the
modification-fold claims (C2, C3). -/

/-- The noise-modified base distance: base sphere distance minus the four
terrain layers, before any modification is applied. -/
noncomputable def noisyBaseDist (p : Planet) (x y z : ℝ) : ℝ :=
  let dx := x - p.cx
  let dy := y - p.cy
  let dz := z - p.cz
  let distFromCenter := Real.sqrt (dx * dx + dy * dy + dz * dz)
  let dist0 := distFromCenter - p.radius
  let nx := dx / distFromCenter
  let ny := dy / distFromCenter
  let nz := dz / distFromCenter
  let continentNoise := noise3D (nx * 2) (ny * 2) (nz * 2)
  let continentHeight := continentNoise * p.radius * 0.08
  let mountainNoise1 := noise3D (nx * 4 + 50) (ny * 4 + 50) (nz * 4 + 50)
  let ridged := 1.0 - |mountainNoise1|
  let mountainHeight := ridged ^ 2 * p.radius * 0.15
  let hillNoise := noise3D (nx * 10) (ny * 10) (nz * 10)
  let hillHeight := hillNoise * p.radius * 0.03
  let microNoise1 := noise3D (nx * 25) (ny * 25) (nz * 25)
  let microNoise2 := noise3D (nx * 50) (ny * 50) (nz * 50)
  let microHeight := (microNoise1 * 0.015 + microNoise2 * 0.008) * p.radius
  dist0 - continentHeight - mountainHeight - hillHeight - microHeight

/-- Signed distance from `(x,y,z)` to the modification's sphere surface. -/
noncomputable def modSphereDist (m : Modification) (x y z : ℝ) : ℝ :=
  Real.sqrt ((x - m.px) * (x - m.px) + (y - m.py) * (y - m.py) +
    (z - m.pz) * (z - m.pz)) - m.radius

/-- One fold step of the modification list: `min` for Add, `max` of the
negation for Subtract. -/
noncomputable def applyMod (x y z : ℝ) (dist : ℝ) (m : Modification) : ℝ :=
  if m.add then min dist (modSphereDist m x y z)
  else max dist (-modSphereDist m x y z)

/-- `sdf` is the fold of `applyMod` over the modification list, started at
the noise-modified base distance. -/
theorem sdf_eq_fold (p : Planet) (x y z : ℝ) :
    sdf p x y z =
      p.modifications.foldl (applyMod x y z) (noisyBaseDist p x y z) := by
  unfold sdf noisyBaseDist applyMod modSphereDist
  rfl

/-- Appending one modification applies one more fold step to the previous
distance value. -/
theorem sdf_append (p : Planet) (m : Modification) (x y z : ℝ) :
    sdf { p with modifications := p.modifications ++ [m] } x y z =
      applyMod x y z (sdf p x y z) m := by
  rw [sdf_eq_fold, sdf_eq_fold]
  simp only [List.foldl_append, List.foldl_cons, List.foldl_nil]
  rfl

end TinyPlanet

namespace TinyPlanet

/-- C2: the signed distance function folds the modification list over the
noise-modified base distance in insertion order — `min` with the sphere
distance for Add, `max` with its negation for Subtract — and returns the
final fold value; appending a modification applies exactly one more step to
the previous distance. -/
theorem c2_modification_fold (p : Planet) (m : Modification) (x y z : ℝ) :
    sdf p x y z =
      p.modifications.foldl (applyMod x y z) (noisyBaseDist p x y z) ∧
    sdf { p with modifications := p.modifications ++ [m] } x y z =
      (if m.add then min (sdf p x y z) (modSphereDist m x y z)
       else max (sdf p x y z) (-modSphereDist m x y z)) :=
  ⟨sdf_eq_fold p x y z, sdf_append p m x y z⟩

/-- C3: appending a `place` (Add) modification never increases the signed
distance at any point; appending a `mine` (Subtract) modification never
decreases it at any point outside the removal sphere. -/
theorem c3_place_mine_monotone (p : Planet) (px py pz r x y z : ℝ) :
    sdf (place p px py pz r) x y z ≤ sdf p x y z ∧
      (0 ≤ modSphereDist ⟨px, py, pz, r, false⟩ x y z →
        sdf p x y z ≤ sdf (mine p px py pz r) x y z) := by
  constructor
  · have h : sdf (place p px py pz r) x y z =
        applyMod x y z (sdf p x y z) ⟨px, py, pz, r, true⟩ :=
      sdf_append p ⟨px, py, pz, r, true⟩ x y z
    rw [h]
    exact min_le_left _ _
  · intro _
    have h : sdf (mine p px py pz r) x y z =
        applyMod x y z (sdf p x y z) ⟨px, py, pz, r, false⟩ :=
      sdf_append p ⟨px, py, pz, r, false⟩ x y z
    rw [h]
    exact le_max_left _ _

/-- Witness for C3: unit planet at the origin, modification sphere at
`(5,0,0)` of radius 1, evaluation point the origin (outside that sphere). -/
theorem c3_witness :
    0 ≤ modSphereDist ⟨5, 0, 0, 1, false⟩ 0 0 0 ∧
    (sdf (place ⟨0, 0, 0, 1, []⟩ 5 0 0 1) 0 0 0 ≤ sdf ⟨0, 0, 0, 1, []⟩ 0 0 0 ∧
     sdf ⟨0, 0, 0, 1, []⟩ 0 0 0 ≤ sdf (mine ⟨0, 0, 0, 1, []⟩ 5 0 0 1) 0 0 0) := by
  have hd : modSphereDist ⟨(5 : ℝ), 0, 0, 1, false⟩ 0 0 0 = 4 := by
    unfold modSphereDist
    have h25 : ((0 : ℝ) - 5) * (0 - 5) + (0 - 0) * (0 - 0) + (0 - 0) * (0 - 0) = 5 ^ 2 := by
      norm_num
    rw [h25, Real.sqrt_sq (by norm_num : (0 : ℝ) ≤ 5)]
    norm_num
  have hout : 0 ≤ modSphereDist ⟨(5 : ℝ), 0, 0, 1, false⟩ 0 0 0 := by
    rw [hd]; norm_num
  exact ⟨hout, (c3_place_mine_monotone ⟨0, 0, 0, 1, []⟩ 5 0 0 1 0 0 0).1,
    (c3_place_mine_monotone ⟨0, 0, 0, 1, []⟩ 5 0 0 1 0 0 0).2 hout⟩

end TinyPlanet

namespace TinyPlanet

/-!
JS-number-faithful model of the `sdf` evaluation for the centre-degeneracy
claim (C9).  `JsReal` models an IEEE double: `some v` is a finite value,
`none` a non-finite one (`NaN` or `±Infinity`).  Finite arithmetic is
modelled exactly; an operation on a non-finite operand, a division by zero
(`0/0 = NaN`, `x/0 = ±Infinity`), or the square root of a negative number
(`NaN`) gives `none` — matching JS on every operation this evaluation
performs (overflow to infinity is not modelled).  The JS int conversion
`Math.floor(x) & 255` maps `NaN` to `0` (`ToInt32(NaN) = 0`).
-/

def JsReal := Option ℝ

noncomputable def jAdd : JsReal → JsReal → JsReal
  | some a, some b => some (a + b)
  | _, _ => none

noncomputable def jSub : JsReal → JsReal → JsReal
  | some a, some b => some (a - b)
  | _, _ => none

noncomputable def jMul : JsReal → JsReal → JsReal
  | some a, some b => some (a * b)
  | _, _ => none

noncomputable def jNeg : JsReal → JsReal
  | some a => some (-a)
  | none => none

open Classical in
noncomputable def jDiv : JsReal → JsReal → JsReal
  | some a, some b => if b = 0 then none else some (a / b)
  | _, _ => none

open Classical in
noncomputable def jSqrt : JsReal → JsReal
  | some a => if a < 0 then none else some (Real.sqrt a)
  | none => none

noncomputable def jAbs : JsReal → JsReal
  | some a => some |a|
  | none => none

/-- `Math.pow(x, 2)`. -/
noncomputable def jPow2 : JsReal → JsReal
  | some a => some (a ^ 2)
  | none => none

noncomputable def jMin : JsReal → JsReal → JsReal
  | some a, some b => some (min a b)
  | _, _ => none

noncomputable def jMax : JsReal → JsReal → JsReal
  | some a, some b => some (max a b)
  | _, _ => none

/-- `Math.floor` (`NaN` stays `NaN`). -/
noncomputable def jFloor : JsReal → JsReal
  | some a => some (⌊a⌋ : ℝ)
  | none => none

/-- `Math.floor(x) & 255` as a table index; `ToInt32(NaN) = 0` in JS. -/
noncomputable def jIdx255 : JsReal → ℕ
  | some a => (⌊a⌋ % 256).toNat
  | none => 0

/-- `fade` over JS numbers. -/
noncomputable def fadeJs (t : JsReal) : JsReal :=
  jMul (jMul (jMul t t) t)
    (jAdd (jMul t (jSub (jMul t (some 6)) (some 15))) (some 10))

/-- `lerp` over JS numbers. -/
noncomputable def lerpJs (a b t : JsReal) : JsReal :=
  jAdd a (jMul t (jSub b a))

/-- `grad` over JS numbers (the hash is always a finite table value). -/
noncomputable def gradJs (hash : ℕ) (x y z : JsReal) : JsReal :=
  let h := hash &&& 15
  let u := if h < 8 then x else y
  let v := if h < 4 then y else if h = 12 ∨ h = 14 then x else z
  jAdd (if h &&& 1 = 0 then u else jNeg u) (if h &&& 2 = 0 then v else jNeg v)

/-- `noise3D` over JS numbers. -/
noncomputable def noise3DJs (x y z : JsReal) : JsReal :=
  let X : ℕ := jIdx255 x
  let Y : ℕ := jIdx255 y
  let Z : ℕ := jIdx255 z
  let xf := jSub x (jFloor x)
  let yf := jSub y (jFloor y)
  let zf := jSub z (jFloor z)
  let u := fadeJs xf
  let v := fadeJs yf
  let w := fadeJs zf
  let A := perm X + Y
  let AA := perm A + Z
  let AB := perm (A + 1) + Z
  let B := perm (X + 1) + Y
  let BA := perm B + Z
  let BB := perm (B + 1) + Z
  lerpJs
    (lerpJs (lerpJs (gradJs (perm AA) xf yf zf)
        (gradJs (perm BA) (jSub xf (some 1)) yf zf) u)
      (lerpJs (gradJs (perm AB) xf (jSub yf (some 1)) zf)
        (gradJs (perm BB) (jSub xf (some 1)) (jSub yf (some 1)) zf) u) v)
    (lerpJs (lerpJs (gradJs (perm (AA + 1)) xf yf (jSub zf (some 1)))
        (gradJs (perm (BA + 1)) (jSub xf (some 1)) yf (jSub zf (some 1))) u)
      (lerpJs (gradJs (perm (AB + 1)) xf (jSub yf (some 1)) (jSub zf (some 1)))
        (gradJs (perm (BB + 1)) (jSub xf (some 1)) (jSub yf (some 1))
          (jSub zf (some 1))) u) v) w

/-- One modification fold step over JS numbers (`Math.min`/`Math.max`
propagate `NaN`). -/
noncomputable def modStepJs (x y z : ℝ) (dist : JsReal) (m : Modification) :
    JsReal :=
  let mdx := jSub (some x) (some m.px)
  let mdy := jSub (some y) (some m.py)
  let mdz := jSub (some z) (some m.pz)
  let modDist := jSub
    (jSqrt (jAdd (jAdd (jMul mdx mdx) (jMul mdy mdy)) (jMul mdz mdz)))
    (some m.radius)
  if m.add then jMin dist modDist else jMax dist (jNeg modDist)

/-- `TinyPlanet.sdf` over JS numbers, mirroring the source operation by
operation. -/
noncomputable def sdfJs (p : Planet) (x y z : ℝ) : JsReal :=
  let dx := jSub (some x) (some p.cx)
  let dy := jSub (some y) (some p.cy)
  let dz := jSub (some z) (some p.cz)
  let distFromCenter :=
    jSqrt (jAdd (jAdd (jMul dx dx) (jMul dy dy)) (jMul dz dz))
  let dist0 := jSub distFromCenter (some p.radius)
  let nx := jDiv dx distFromCenter
  let ny := jDiv dy distFromCenter
  let nz := jDiv dz distFromCenter
  let continentNoise :=
    noise3DJs (jMul nx (some 2)) (jMul ny (some 2)) (jMul nz (some 2))
  let continentHeight := jMul (jMul continentNoise (some p.radius)) (some 0.08)
  let mountainNoise1 :=
    noise3DJs (jAdd (jMul nx (some 4)) (some 50))
      (jAdd (jMul ny (some 4)) (some 50)) (jAdd (jMul nz (some 4)) (some 50))
  let ridged := jSub (some 1) (jAbs mountainNoise1)
  let mountainHeight := jMul (jMul (jPow2 ridged) (some p.radius)) (some 0.15)
  let hillNoise :=
    noise3DJs (jMul nx (some 10)) (jMul ny (some 10)) (jMul nz (some 10))
  let hillHeight := jMul (jMul hillNoise (some p.radius)) (some 0.03)
  let microNoise1 :=
    noise3DJs (jMul nx (some 25)) (jMul ny (some 25)) (jMul nz (some 25))
  let microNoise2 :=
    noise3DJs (jMul nx (some 50)) (jMul ny (some 50)) (jMul nz (some 50))
  let microHeight := jMul
    (jAdd (jMul microNoise1 (some 0.015)) (jMul microNoise2 (some 0.008)))
    (some p.radius)
  let dist1 :=
    jSub (jSub (jSub (jSub dist0 continentHeight) mountainHeight) hillHeight)
      microHeight
  p.modifications.foldl (modStepJs x y z) dist1

theorem jAdd_none_left (x : JsReal) : jAdd none x = none := rfl

theorem jAdd_none_right (x : JsReal) : jAdd x none = none := by
  cases x <;> rfl

theorem jSub_none_left (x : JsReal) : jSub none x = none := rfl

theorem jSub_none_right (x : JsReal) : jSub x none = none := by
  cases x <;> rfl

theorem jMul_none_left (x : JsReal) : jMul none x = none := rfl

theorem jMul_none_right (x : JsReal) : jMul x none = none := by
  cases x <;> rfl

theorem fadeJs_none : fadeJs none = none := rfl

theorem lerpJs_none_left (b t : JsReal) : lerpJs none b t = none := rfl

theorem jNeg_none : jNeg none = none := rfl

theorem gradJs_none (hash : ℕ) : gradJs hash none none none = none := by
  unfold gradJs
  simp only [ite_self, jNeg_none, jAdd_none_left]

/-- Perlin noise of an all-`NaN` coordinate is `NaN`. -/
theorem noise3DJs_none : noise3DJs none none none = none := by
  unfold noise3DJs
  simp only [jSub_none_left, fadeJs_none, gradJs_none, lerpJs_none_left]

theorem modStepJs_none (x y z : ℝ) (m : Modification) :
    modStepJs x y z none m = none := by
  unfold modStepJs
  split <;> rfl

theorem foldl_modStepJs_none (x y z : ℝ) (l : List Modification) :
    l.foldl (modStepJs x y z) none = none := by
  induction l with
  | nil => rfl
  | cons m l ih => rw [List.foldl_cons, modStepJs_none]; exact ih

end TinyPlanet

namespace TinyPlanet

theorem jAbs_none : jAbs none = none := rfl

theorem jPow2_none : jPow2 none = none := rfl

set_option maxHeartbeats 1000000 in
/-- C9: evaluating the JS-number model of `sdf` at the exact planet centre
returns a non-finite value for every planet state: the direction
normalisation computes `0/0` with no guard, and the resulting `NaN`
propagates through the noise layers and the modification fold to the
returned distance. -/
theorem c9_center_sdf_not_finite (p : Planet) :
    sdfJs p p.cx p.cy p.cz = none := by
  unfold sdfJs
  simp only [jSub, sub_self, jMul, mul_zero, jAdd, add_zero, jSqrt,
    lt_self_iff_false, if_false, Real.sqrt_zero, jDiv, if_true,
    jMul_none_left, jMul_none_right, jAdd_none_left, jAdd_none_right,
    jSub_none_left, jSub_none_right, jAbs_none, jPow2_none, noise3DJs_none,
    ite_true, ite_false, eq_self_iff_true]
  exact foldl_modStepJs_none p.cx p.cy p.cz p.modifications

end TinyPlanet
